import Mathlib

/-!
Verification of the Position Service (src/app.py): a stateless HTTP layer with
three handlers (`make_move` for POST /move, `get_fen_info` for POST /fen,
`reset_game` for GET /reset) over an external chess rules engine.

The rules engine (python-chess) is an external collaborator that src/ delegates
to.  Its operations used by the handlers — board construction from a FEN string,
UCI move parsing, the legal-move set, move application, and the game-state
queries — are modelled here as executable definitions, following the spec's
glossary ("legal-move set: all moves permitted from a given position under chess
rules") and the library's documented behaviour.  The handlers themselves are
translated line by line from src/app.py.
-/

namespace Chess

/-- Piece kinds of the rules engine.  Modelled from the spec: the engine is the
delegated external chess-rules library (piece set of standard chess). -/
inductive PieceType where
  | pawn | knight | bishop | rook | queen | king
deriving DecidableEq, Repr

/-- A piece: kind plus colour (`true` = white, as in python-chess). -/
structure Piece where
  ptype : PieceType
  color : Bool
deriving DecidableEq, Repr

/-- Castling availability flags (white/black, kingside/queenside). -/
structure CastlingRights where
  wk : Bool
  wq : Bool
  bk : Bool
  bq : Bool
deriving DecidableEq, Repr

/-- Board state: square contents (index = square, a1 = 0 … h8 = 63), side to
move, castling rights, en-passant target square, halfmove clock and fullmove
number — exactly the components of the FEN encoding named by the spec. -/
structure Board where
  pieces : List (Option Piece)
  turn : Bool
  castling : CastlingRights
  epSquare : Option Nat
  halfmoveClock : Nat
  fullmoveNumber : Nat
deriving DecidableEq, Repr

/-- A coordinate move: origin square, destination square, optional promotion
piece (the spec's "coordinate move"). -/
structure Move where
  fromSq : Nat
  toSq : Nat
  promo : Option PieceType
deriving DecidableEq, Repr

def pieceAt (b : Board) (s : Nat) : Option Piece := b.pieces.getD s none

def fileOf (s : Nat) : Nat := s % 8

def rankOf (s : Nat) : Nat := s / 8

/-- Jump targets from square `s` reachable by the offsets `ds` that stay on the
board. -/
def offsetTargets (s : Nat) (ds : List (Int × Int)) : List Nat :=
  ds.foldr (fun d acc =>
    let nf : Int := (fileOf s : Int) + d.1
    let nr : Int := (rankOf s : Int) + d.2
    if 0 ≤ nf ∧ nf < 8 ∧ 0 ≤ nr ∧ nr < 8 then (nr * 8 + nf).toNat :: acc else acc) []

def knightDeltas : List (Int × Int) :=
  [(1, 2), (2, 1), (2, -1), (1, -2), (-1, -2), (-2, -1), (-2, 1), (-1, 2)]

def kingDeltas : List (Int × Int) :=
  [(1, 0), (1, 1), (0, 1), (-1, 1), (-1, 0), (-1, -1), (0, -1), (1, -1)]

def bishopDirs : List (Int × Int) := [(1, 1), (1, -1), (-1, -1), (-1, 1)]

def rookDirs : List (Int × Int) := [(1, 0), (-1, 0), (0, 1), (0, -1)]

/-- Walk a ray from file/rank `(f, r)` in direction `(df, dr)`, collecting
squares until the edge of the board or a blocking piece (the blocker's square
is included, as a possible capture). -/
def rayAux (b : Board) (f r df dr : Int) : Nat → List Nat
  | 0 => []
  | Nat.succ fuel =>
    let nf := f + df
    let nr := r + dr
    if 0 ≤ nf ∧ nf < 8 ∧ 0 ≤ nr ∧ nr < 8 then
      let sq := (nr * 8 + nf).toNat
      match pieceAt b sq with
      | none => sq :: rayAux b nf nr df dr fuel
      | some _ => [sq]
    else []

def slideTargets (b : Board) (s : Nat) (dirs : List (Int × Int)) : List Nat :=
  dirs.foldr (fun d acc => rayAux b (fileOf s : Int) (rankOf s : Int) d.1 d.2 7 ++ acc) []

/-- Squares attacked by the piece `p` standing on square `s`. -/
def attackTargets (b : Board) (s : Nat) (p : Piece) : List Nat :=
  match p.ptype with
  | .pawn => offsetTargets s (if p.color then [(-1, 1), (1, 1)] else [(-1, -1), (1, -1)])
  | .knight => offsetTargets s knightDeltas
  | .king => offsetTargets s kingDeltas
  | .bishop => slideTargets b s bishopDirs
  | .rook => slideTargets b s rookDirs
  | .queen => slideTargets b s bishopDirs ++ slideTargets b s rookDirs

/-- Is square `t` attacked by any piece of colour `byColor`? -/
def attacked (b : Board) (byColor : Bool) (t : Nat) : Bool :=
  (List.range 64).any fun s =>
    match pieceAt b s with
    | some p => p.color == byColor && (attackTargets b s p).contains t
    | none => false

def mkPromotions (f t : Nat) : List Move :=
  [PieceType.queen, PieceType.rook, PieceType.bishop, PieceType.knight].map
    fun pt => { fromSq := f, toSq := t, promo := some pt }

def pawnForward (c : Bool) : Int := if c then 1 else -1

def pawnStartRank (c : Bool) : Nat := if c then 1 else 6

def pawnPromoRank (c : Bool) : Nat := if c then 7 else 0

/-- Pseudo-legal pawn pushes and ordinary captures (en passant is generated
separately, as in the engine). -/
def pawnMoves (b : Board) (c : Bool) (s : Nat) : List Move :=
  let f := fileOf s
  let r := rankOf s
  let dir := pawnForward c
  let one : Int := (r : Int) + dir
  let singles :=
    if 0 ≤ one ∧ one < 8 then
      let t := (one * 8 + (f : Int)).toNat
      if pieceAt b t = none then
        (if rankOf t = pawnPromoRank c then mkPromotions s t
         else [{ fromSq := s, toSq := t, promo := none }])
        ++ (if r = pawnStartRank c then
              let two := one + dir
              if 0 ≤ two ∧ two < 8 then
                let t2 := (two * 8 + (f : Int)).toNat
                if pieceAt b t2 = none then [{ fromSq := s, toSq := t2, promo := none }] else []
              else []
            else [])
      else []
    else []
  let caps := ([-1, 1] : List Int).foldr (fun df acc =>
    let nf := (f : Int) + df
    if 0 ≤ nf ∧ nf < 8 ∧ 0 ≤ one ∧ one < 8 then
      let t := (one * 8 + nf).toNat
      match pieceAt b t with
      | some q =>
        if q.color ≠ c then
          (if rankOf t = pawnPromoRank c then mkPromotions s t
           else [{ fromSq := s, toSq := t, promo := none }]) ++ acc
        else acc
      | none => acc
    else acc) []
  singles ++ caps

/-- Pseudo-legal en-passant captures: the en-passant target square must be set
and empty, and a pawn of the side to move must stand on the capturing rank and
attack it (mirroring the engine's generator). -/
def epMoves (b : Board) : List Move :=
  match b.epSquare with
  | none => []
  | some e =>
    if pieceAt b e ≠ none then []
    else
      (List.range 64).foldr (fun s acc =>
        match pieceAt b s with
        | some p =>
          if p.ptype = PieceType.pawn ∧ p.color = b.turn
              ∧ rankOf s = (if b.turn then 4 else 3) ∧ e ∈ attackTargets b s p then
            { fromSq := s, toSq := e, promo := none } :: acc
          else acc
        | none => acc) []

/-- Castling moves, with the standard conditions: the right is available, king
and rook stand on their home squares, the path is empty, and the king does not
castle out of, through, or into check. -/
def castlingMoves (b : Board) : List Move :=
  let enemy := !b.turn
  if b.turn then
    (if b.castling.wk ∧ pieceAt b 4 = some ⟨.king, true⟩ ∧ pieceAt b 7 = some ⟨.rook, true⟩
        ∧ pieceAt b 5 = none ∧ pieceAt b 6 = none
        ∧ attacked b enemy 4 = false ∧ attacked b enemy 5 = false ∧ attacked b enemy 6 = false
     then [{ fromSq := 4, toSq := 6, promo := none }] else [])
    ++ (if b.castling.wq ∧ pieceAt b 4 = some ⟨.king, true⟩ ∧ pieceAt b 0 = some ⟨.rook, true⟩
        ∧ pieceAt b 1 = none ∧ pieceAt b 2 = none ∧ pieceAt b 3 = none
        ∧ attacked b enemy 4 = false ∧ attacked b enemy 3 = false ∧ attacked b enemy 2 = false
     then [{ fromSq := 4, toSq := 2, promo := none }] else [])
  else
    (if b.castling.bk ∧ pieceAt b 60 = some ⟨.king, false⟩ ∧ pieceAt b 63 = some ⟨.rook, false⟩
        ∧ pieceAt b 61 = none ∧ pieceAt b 62 = none
        ∧ attacked b enemy 60 = false ∧ attacked b enemy 61 = false ∧ attacked b enemy 62 = false
     then [{ fromSq := 60, toSq := 62, promo := none }] else [])
    ++ (if b.castling.bq ∧ pieceAt b 60 = some ⟨.king, false⟩ ∧ pieceAt b 56 = some ⟨.rook, false⟩
        ∧ pieceAt b 57 = none ∧ pieceAt b 58 = none ∧ pieceAt b 59 = none
        ∧ attacked b enemy 60 = false ∧ attacked b enemy 59 = false ∧ attacked b enemy 58 = false
     then [{ fromSq := 60, toSq := 58, promo := none }] else [])

/-- Pseudo-legal moves of the piece on square `s` (excluding pawns' en passant
and the king's castling, which are generated separately). -/
def movesFrom (b : Board) (s : Nat) : List Move :=
  match pieceAt b s with
  | none => []
  | some p =>
    if p.color ≠ b.turn then []
    else match p.ptype with
      | .pawn => pawnMoves b p.color s
      | _ =>
        (attackTargets b s p).foldr (fun t acc =>
          match pieceAt b t with
          | some q => if q.color = b.turn then acc else { fromSq := s, toSq := t, promo := none } :: acc
          | none => { fromSq := s, toSq := t, promo := none } :: acc) []

def pseudoMoves (b : Board) : List Move :=
  ((List.range 64).foldr (fun s acc => movesFrom b s ++ acc) []) ++ epMoves b ++ castlingMoves b

/-- Apply a move to the board: relocate the piece (promoting if requested),
remove a captured piece (including the en-passant case), move the rook on a
castling king move, update castling rights, the en-passant square, the clocks
and the side to move — mirroring the engine's `push`. -/
def push (b : Board) (m : Move) : Board :=
  let mover := b.turn
  let mpt : Option PieceType := (pieceAt b m.fromSq).map (·.ptype)
  let captured := pieceAt b m.toSq
  let epCap : Bool := decide (mpt = some PieceType.pawn ∧ b.epSquare = some m.toSq ∧ captured = none ∧
      (m.fromSq = m.toSq + 7 ∨ m.toSq = m.fromSq + 7 ∨ m.fromSq = m.toSq + 9 ∨ m.toSq = m.fromSq + 9))
  let capSq : Nat := if epCap then (if mover then m.toSq - 8 else m.toSq + 8) else m.toSq
  let isCapture : Bool := epCap || decide (captured ≠ none)
  let movedPiece : Option Piece :=
    match pieceAt b m.fromSq with
    | none => none
    | some p => some (match m.promo with | some pt => ⟨pt, p.color⟩ | none => p)
  let pieces1 := (b.pieces.set m.fromSq none).set capSq none
  let pieces2 := pieces1.set m.toSq movedPiece
  let isCastle : Bool := decide (mpt = some PieceType.king ∧
      (fileOf m.fromSq + 1 < fileOf m.toSq ∨ fileOf m.toSq + 1 < fileOf m.fromSq))
  let pieces3 :=
    if isCastle then
      if m.toSq = 6 then (pieces2.set 7 none).set 5 (some ⟨.rook, true⟩)
      else if m.toSq = 2 then (pieces2.set 0 none).set 3 (some ⟨.rook, true⟩)
      else if m.toSq = 62 then (pieces2.set 63 none).set 61 (some ⟨.rook, false⟩)
      else if m.toSq = 58 then (pieces2.set 56 none).set 59 (some ⟨.rook, false⟩)
      else pieces2
    else pieces2
  let isKing : Bool := decide (mpt = some PieceType.king)
  let c := b.castling
  let castling2 : CastlingRights :=
    { wk := c.wk && !(isKing && mover) && decide (m.fromSq ≠ 7 ∧ m.toSq ≠ 7)
    , wq := c.wq && !(isKing && mover) && decide (m.fromSq ≠ 0 ∧ m.toSq ≠ 0)
    , bk := c.bk && !(isKing && !mover) && decide (m.fromSq ≠ 63 ∧ m.toSq ≠ 63)
    , bq := c.bq && !(isKing && !mover) && decide (m.fromSq ≠ 56 ∧ m.toSq ≠ 56) }
  let newEp : Option Nat :=
    if mpt = some PieceType.pawn ∧ m.toSq = m.fromSq + 16 ∧ rankOf m.fromSq = 1 then
      some (m.fromSq + 8)
    else if mpt = some PieceType.pawn ∧ m.fromSq = m.toSq + 16 ∧ rankOf m.fromSq = 6 then
      some (m.fromSq - 8)
    else none
  let hm := if mpt = some PieceType.pawn ∨ isCapture = true then 0 else b.halfmoveClock + 1
  { pieces := pieces3
  , turn := !mover
  , castling := castling2
  , epSquare := newEp
  , halfmoveClock := hm
  , fullmoveNumber := b.fullmoveNumber + (if mover then 0 else 1) }

/-- The (highest) square holding the king of colour `c`, if any. -/
def kingSq (b : Board) (c : Bool) : Option Nat :=
  (List.range 64).foldl (fun acc s =>
    if pieceAt b s = some ⟨PieceType.king, c⟩ then some s else acc) none

/-- A pseudo-legal move is kept if, after playing it, the mover's king is not
attacked. -/
def isSafeAfter (b : Board) (m : Move) : Bool :=
  let b2 := push b m
  match kingSq b2 b.turn with
  | none => true
  | some k => !(attacked b2 (!b.turn) k)

/-- The legal-move set of the board (the spec's "legal-move set").  When the
side to move has no king every pseudo-legal move counts as legal, as in the
engine. -/
def legalMoves (b : Board) : List Move :=
  match kingSq b b.turn with
  | none => pseudoMoves b
  | some _ => (pseudoMoves b).filter (fun m => isSafeAfter b m)

def isCheck (b : Board) : Bool :=
  match kingSq b b.turn with
  | none => false
  | some k => attacked b (!b.turn) k

def isCheckmate (b : Board) : Bool := isCheck b && (legalMoves b).isEmpty

def isStalemate (b : Board) : Bool := !(isCheck b) && (legalMoves b).isEmpty

def colorHas (b : Board) (c : Bool) (pts : List PieceType) : Bool :=
  (List.range 64).any fun s =>
    match pieceAt b s with
    | some p => p.color == c && pts.contains p.ptype
    | none => false

def countColor (b : Board) (c : Bool) : Nat :=
  (List.range 64).foldr (fun s acc =>
    match pieceAt b s with
    | some p => if p.color = c then acc + 1 else acc
    | none => acc) 0

def bishopsAllOn (b : Board) (shade : Nat) : Bool :=
  (List.range 64).all fun s =>
    match pieceAt b s with
    | some p => if p.ptype = PieceType.bishop then (fileOf s + rankOf s) % 2 == shade else true
    | none => true

/-- Insufficient winning material for colour `c`, following the engine's rule:
pawns, rooks or queens suffice; a knight only loses to extra material; bishops
must not all share a square colour. -/
def hasInsufficientMaterial (b : Board) (c : Bool) : Bool :=
  if colorHas b c [.pawn, .rook, .queen] then false
  else if colorHas b c [.knight] then
    decide (countColor b c ≤ 2) &&
      !((List.range 64).any fun s =>
        match pieceAt b s with
        | some p => p.color == !c && p.ptype != PieceType.king && p.ptype != PieceType.queen
        | none => false)
  else if colorHas b c [.bishop] then
    (bishopsAllOn b 0 || bishopsAllOn b 1) &&
      !(colorHas b true [.pawn, .knight] || colorHas b false [.pawn, .knight])
  else true

def isInsufficientMaterial (b : Board) : Bool :=
  hasInsufficientMaterial b true && hasInsufficientMaterial b false

def isSeventyfiveMoves (b : Board) : Bool :=
  decide (150 ≤ b.halfmoveClock) && !(legalMoves b).isEmpty

/-- Game over: checkmate, stalemate, insufficient material, or the 75-move
rule.  Fivefold repetition also ends the game in the engine but needs at least
eight plies of recorded history; every board in this service is freshly parsed
from a FEN (empty history) with at most one move pushed, so it is constantly
false here. -/
def isGameOver (b : Board) : Bool :=
  isCheckmate b || isStalemate b || isInsufficientMaterial b || isSeventyfiveMoves b

/-! ### UCI move strings and the FEN encoding -/

/-- File letter of a file index (0 ↦ 'a' … 7 ↦ 'h'; indices above 7 cannot
arise from a square on the board). -/
def fileChar (f : Nat) : Char :=
  match f with
  | 0 => 'a' | 1 => 'b' | 2 => 'c' | 3 => 'd' | 4 => 'e' | 5 => 'f' | 6 => 'g' | _ => 'h'

/-- Rank digit of a rank index (0 ↦ '1' … 7 ↦ '8'). -/
def rankChar (r : Nat) : Char :=
  match r with
  | 0 => '1' | 1 => '2' | 2 => '3' | 3 => '4' | 4 => '5' | 5 => '6' | 6 => '7' | _ => '8'

def squareChars (s : Nat) : List Char := [fileChar (fileOf s), rankChar (rankOf s)]

def promoChar : PieceType → Char
  | .pawn => 'p' | .knight => 'n' | .bishop => 'b' | .rook => 'r' | .queen => 'q' | .king => 'k'

/-- UCI rendering of a move (the null move prints as "0000", as in the
engine). -/
def moveUci (m : Move) : String :=
  if m.fromSq = 0 ∧ m.toSq = 0 ∧ m.promo = none then "0000"
  else String.mk (squareChars m.fromSq ++ squareChars m.toSq ++
    (match m.promo with | some pt => [promoChar pt] | none => []))

def legalUci (b : Board) : List String := (legalMoves b).map moveUci

def pieceFenChar (p : Piece) : Char :=
  if p.color then
    match p.ptype with
    | .pawn => 'P' | .knight => 'N' | .bishop => 'B' | .rook => 'R' | .queen => 'Q' | .king => 'K'
  else
    match p.ptype with
    | .pawn => 'p' | .knight => 'n' | .bishop => 'b' | .rook => 'r' | .queen => 'q' | .king => 'k'

/-- Decimal digit characters (the run lengths and counters written into a FEN
are produced through this table). -/
def digitChar10 (n : Nat) : Char :=
  match n with
  | 0 => '0' | 1 => '1' | 2 => '2' | 3 => '3' | 4 => '4'
  | 5 => '5' | 6 => '6' | 7 => '7' | 8 => '8' | _ => '9'

/-- One rank of the FEN piece-placement field: pieces as letters, runs of `n`
empty squares compressed to the digit `n`. -/
def emitRank : List (Option Piece) → Nat → List Char
  | [], 0 => []
  | [], Nat.succ n => [digitChar10 (n + 1)]
  | none :: rest, n => emitRank rest (n + 1)
  | some pc :: rest, 0 => pieceFenChar pc :: emitRank rest 0
  | some pc :: rest, Nat.succ n => digitChar10 (n + 1) :: pieceFenChar pc :: emitRank rest 0

def rankCells (b : Board) (r : Nat) : List (Option Piece) :=
  (List.range 8).map fun f => pieceAt b (r * 8 + f)

def joinChar (sep : Char) : List (List Char) → List Char
  | [] => []
  | [x] => x
  | x :: y :: xs => x ++ sep :: joinChar sep (y :: xs)

/-- The FEN piece-placement field: ranks 8 down to 1, separated by '/'. -/
def placementChars (b : Board) : List Char :=
  joinChar '/' (((List.range 8).reverse).map fun r => emitRank (rankCells b r) 0)

def turnChars (t : Bool) : List Char := if t then ['w'] else ['b']

def castlingChars (c : CastlingRights) : List Char :=
  let l := (if c.wk then ['K'] else []) ++ (if c.wq then ['Q'] else [])
        ++ (if c.bk then ['k'] else []) ++ (if c.bq then ['q'] else [])
  if l = [] then ['-'] else l

/-- Is some legal move of `b` an en-passant capture?  (The engine writes the
en-passant square into a FEN only when one is.) -/
def hasLegalEp (b : Board) : Bool :=
  match b.epSquare with
  | none => false
  | some e => (legalMoves b).any fun m =>
      m.toSq == e && ((pieceAt b m.fromSq).map (·.ptype) == some PieceType.pawn)
        && decide (fileOf m.fromSq ≠ fileOf e)

def epChars (b : Board) : List Char :=
  match b.epSquare with
  | none => ['-']
  | some e => if hasLegalEp b then squareChars e else ['-']

/-- Little-endian decimal digits of `n`, with enough fuel (each step divides
`n` by ten, so `n` itself is always enough). -/
def natDigitsRevAux (fuel : Nat) (n : Nat) : List Char :=
  match fuel with
  | 0 => []
  | Nat.succ f => if n = 0 then [] else digitChar10 (n % 10) :: natDigitsRevAux f (n / 10)

def natChars (n : Nat) : List Char :=
  if n = 0 then ['0'] else (natDigitsRevAux n n).reverse

/-- The FEN serialization of a board, as the engine's `fen()` produces it:
placement, side to move, castling rights, en-passant target (only when legally
capturable), halfmove clock, fullmove number, space-separated. -/
def boardFen (b : Board) : String :=
  String.mk (joinChar ' ' [placementChars b, turnChars b.turn, castlingChars b.castling,
    epChars b, natChars b.halfmoveClock, natChars b.fullmoveNumber])

/-! ### FEN parsing -/

/-- The whitespace characters `str.split()` separates on. -/
def isSpaceChar (c : Char) : Bool :=
  c == ' ' || c == '\t' || c == '\n' || c == '\r' || c == '\x0b' || c == '\x0c'

/-- Split into maximal runs of non-`p` characters, dropping separators (the
behaviour of Python's `str.split()` used by the engine's FEN parser).  `cur`
accumulates the current word, reversed. -/
def wordsByAux (p : Char → Bool) : List Char → List Char → List (List Char)
  | [], cur => if cur = [] then [] else [cur.reverse]
  | c :: cs, cur =>
    if p c then
      if cur = [] then wordsByAux p cs [] else cur.reverse :: wordsByAux p cs []
    else wordsByAux p cs (c :: cur)

def wordsBy (p : Char → Bool) (l : List Char) : List (List Char) := wordsByAux p l []

def fenTokens (s : String) : List (List Char) := wordsBy isSpaceChar s.data

def digitVal (c : Char) : Option Nat :=
  if c.isDigit then some (c.toNat - 48) else none

/-- An empty-run digit inside the placement field must be 1–8. -/
def digitVal18 (c : Char) : Option Nat :=
  if '1' ≤ c ∧ c ≤ '8' then some (c.toNat - 48) else none

def charPieceOf (c : Char) : Option Piece :=
  match c with
  | 'P' => some ⟨.pawn, true⟩ | 'N' => some ⟨.knight, true⟩ | 'B' => some ⟨.bishop, true⟩
  | 'R' => some ⟨.rook, true⟩ | 'Q' => some ⟨.queen, true⟩ | 'K' => some ⟨.king, true⟩
  | 'p' => some ⟨.pawn, false⟩ | 'n' => some ⟨.knight, false⟩ | 'b' => some ⟨.bishop, false⟩
  | 'r' => some ⟨.rook, false⟩ | 'q' => some ⟨.queen, false⟩ | 'k' => some ⟨.king, false⟩
  | _ => none

/-- Split the placement field on '/', keeping empty chunks (Python's
`"…".split("/")`). -/
def splitSlash : List Char → List (List Char)
  | [] => [[]]
  | c :: cs =>
    if c = '/' then [] :: splitSlash cs
    else match splitSlash cs with
      | [] => [[c]]
      | r :: rs => (c :: r) :: rs

/-- Parse one placement rank, enforcing the engine's checks: digits 1–8 with no
two digits adjacent, '~' (promotion marker) only directly after a piece, total
of exactly 8 squares.  The accumulator holds the cells in reverse order. -/
def parseRowAux : List Char → Bool → Bool → List (Option Piece) → Option (List (Option Piece))
  | [], _, _, acc => if acc.length = 8 then some acc.reverse else none
  | c :: cs, prevDigit, prevPiece, acc =>
    match digitVal18 c with
    | some d =>
      if prevDigit then none
      else parseRowAux cs true false (List.replicate d none ++ acc)
    | none =>
      if c = '~' then (if prevPiece then parseRowAux cs false false acc else none)
      else match charPieceOf c with
        | some pc => parseRowAux cs false true (some pc :: acc)
        | none => none

def parseRow (cs : List Char) : Option (List (Option Piece)) := parseRowAux cs false false []

/-- Parse the placement field: exactly 8 '/'-separated ranks, given from rank 8
down to rank 1; the result lists squares from a1 to h8. -/
def parsePlacement (cs : List Char) : Option (List (Option Piece)) := do
  let rows := splitSlash cs
  if rows.length = 8 then
    let parsed ← rows.mapM parseRow
    some parsed.reverse.flatten
  else none

/-- Parse the side-to-move token; a missing token defaults to white, exactly as
in the engine's FEN parser. -/
def parseTurnTok : List (List Char) → Option (Bool × List (List Char))
  | [] => some (true, [])
  | t :: rest =>
    if t = ['w'] then some (true, rest)
    else if t = ['b'] then some (false, rest)
    else none

def upperCastleChars : List Char := ['K', 'Q', 'A', 'B', 'C', 'D', 'E', 'F', 'G', 'H']

def lowerCastleChars : List Char := ['k', 'q', 'a', 'b', 'c', 'd', 'e', 'f', 'g', 'h']

/-- The engine's castling-field pattern: "-" or up to two uppercase letters
followed by up to two lowercase letters from the castling alphabet. -/
def validCastlingTok (cs : List Char) : Bool :=
  cs = ['-'] ||
    (let ups := cs.takeWhile fun c => upperCastleChars.contains c
     let los := cs.dropWhile fun c => upperCastleChars.contains c
     decide (ups.length ≤ 2) && decide (los.length ≤ 2) &&
       los.all fun c => lowerCastleChars.contains c)

/-- Accumulate rights from the castling letters.  'K','Q','k','q' name the
sides directly; Shredder-style file letters grant the kingside right for files
beyond the king's file e and the queenside right otherwise. -/
def castlingFromChars (cs : List Char) : CastlingRights :=
  cs.foldl (fun r c =>
    match c with
    | 'K' => { r with wk := true }
    | 'Q' => { r with wq := true }
    | 'k' => { r with bk := true }
    | 'q' => { r with bq := true }
    | 'F' | 'G' | 'H' => { r with wk := true }
    | 'A' | 'B' | 'C' | 'D' | 'E' => { r with wq := true }
    | 'f' | 'g' | 'h' => { r with bk := true }
    | 'a' | 'b' | 'c' | 'd' | 'e' => { r with bq := true }
    | _ => r) ⟨false, false, false, false⟩

def parseCastlingTok : List (List Char) → Option (CastlingRights × List (List Char))
  | [] => some (⟨false, false, false, false⟩, [])
  | t :: rest =>
    if validCastlingTok t then
      some ((if t = ['-'] then ⟨false, false, false, false⟩ else castlingFromChars t), rest)
    else none

def fileIdxOfChar (c : Char) : Option Nat :=
  match c with
  | 'a' => some 0 | 'b' => some 1 | 'c' => some 2 | 'd' => some 3
  | 'e' => some 4 | 'f' => some 5 | 'g' => some 6 | 'h' => some 7
  | _ => none

def rankIdxOfChar (c : Char) : Option Nat :=
  match c with
  | '1' => some 0 | '2' => some 1 | '3' => some 2 | '4' => some 3
  | '5' => some 4 | '6' => some 5 | '7' => some 6 | '8' => some 7
  | _ => none

def squareOfChars (fc rc : Char) : Option Nat := do
  let f ← fileIdxOfChar fc
  let r ← rankIdxOfChar rc
  some (r * 8 + f)

/-- Parse the en-passant token: "-" or any square name; missing defaults to no
square. -/
def parseEpTok : List (List Char) → Option (Option Nat × List (List Char))
  | [] => some (none, [])
  | t :: rest =>
    if t = ['-'] then some (none, rest)
    else match t with
      | [fc, rc] =>
        match squareOfChars fc rc with
        | some sq => some (some sq, rest)
        | none => none
      | _ => none

def parseDigits (l : List Char) : Option Nat :=
  match l with
  | [] => none
  | _ => l.foldl (fun acc c =>
      match acc, digitVal c with
      | some a, some d => some (a * 10 + d)
      | _, _ => none) (some 0)

/-- Python's `int(...)` on a token: an optional sign followed by digits. -/
def parseIntChars (cs : List Char) : Option Int :=
  match cs with
  | '-' :: rest => (parseDigits rest).map fun n => -(n : Int)
  | '+' :: rest => (parseDigits rest).map fun n => (n : Int)
  | _ => (parseDigits cs).map fun n => (n : Int)

/-- Parse the halfmove-clock token: an integer that must not be negative;
missing defaults to 0. -/
def parseHalfTok : List (List Char) → Option (Nat × List (List Char))
  | [] => some (0, [])
  | t :: rest =>
    match parseIntChars t with
    | some i => if i < 0 then none else some (i.toNat, rest)
    | none => none

/-- Parse the fullmove-number token: a non-negative integer clamped up to 1;
missing defaults to 1. -/
def parseFullTok : List (List Char) → Option (Nat × List (List Char))
  | [] => some (1, [])
  | t :: rest =>
    match parseIntChars t with
    | some i => if i < 0 then none else some (max 1 i.toNat, rest)
    | none => none

/-- The FEN fields after the side-to-move one, parsed in sequence with
defaults for missing tokens; any token left after the fullmove number is an
error ("fen string has more parts than expected"). -/
def parseFieldsAfterTurn (turn : Bool) (r1 : List (List Char)) :
    Option (Bool × CastlingRights × Option Nat × Nat × Nat) :=
  match parseCastlingTok r1 with
  | none => none
  | some (cr, r2) =>
    match parseEpTok r2 with
    | none => none
    | some (ep, r3) =>
      match parseHalfTok r3 with
      | none => none
      | some (hm, r4) =>
        match parseFullTok r4 with
        | none => none
        | some (fm, r5) =>
          match r5 with
          | _ :: _ => none
          | [] => some (turn, cr, ep, hm, fm)

def parseFields (rest : List (List Char)) :
    Option (Bool × CastlingRights × Option Nat × Nat × Nat) :=
  match parseTurnTok rest with
  | none => none
  | some (turn, r1) => parseFieldsAfterTurn turn r1

/-- `chess.Board(fen)`: split the string into whitespace-separated fields,
parse each (later fields defaulting when absent), reject leftover fields, and
validate the placement.  Modelled from the spec: "Position: … validated only by
the rules engine"; a `none` result is the engine's parse exception. -/
def parseBoard (s : String) : Option Board :=
  match fenTokens s with
  | [] => none
  | boardPart :: rest =>
    match parseFields rest with
    | none => none
    | some (turn, cr, ep, hm, fm) =>
      match parsePlacement boardPart with
      | none => none
      | some cells =>
        some { pieces := cells, turn := turn, castling := cr, epSquare := ep,
               halfmoveClock := hm, fullmoveNumber := fm }

/-- `chess.Move.from_uci`: "0000" is the null move; otherwise four or five
characters naming two distinct squares and an optional promotion piece letter.
(Crazyhouse drop strings like "Q@e4" parse in the engine to drop moves that are
never legal on a standard board; they are modelled as parse failures, which
produces the same response on every handler path.) -/
def fromUci (s : String) : Option Move :=
  let cs := s.data
  if cs = ['0', '0', '0', '0'] then some { fromSq := 0, toSq := 0, promo := none }
  else match cs with
    | [a, b, c, d] => do
      let f ← squareOfChars a b
      let t ← squareOfChars c d
      if f = t then none else some { fromSq := f, toSq := t, promo := none }
    | [a, b, c, d, e] => do
      let f ← squareOfChars a b
      let t ← squareOfChars c d
      let pr ← promoOfChar e
      if f = t then none else some { fromSq := f, toSq := t, promo := some pr }
    | _ => none
where
  promoOfChar (c : Char) : Option PieceType :=
    match c with
    | 'p' => some .pawn | 'n' => some .knight | 'b' => some .bishop
    | 'r' => some .rook | 'q' => some .queen | 'k' => some .king
    | _ => none

/-! ### The three request handlers of src/app.py -/

/-- Response body of POST /move. -/
structure MoveResponse where
  fen : String
  valid : Bool
  legal_moves : List String
  is_check : Bool
  is_checkmate : Bool
  is_stalemate : Bool
  is_game_over : Bool
deriving DecidableEq, Repr

/-- The response shape shared by both branches of `make_move`: the given `fen`
string and validity flag, with the legal moves and all four state flags
computed on the given board. -/
def moveResponseOf (fenStr : String) (v : Bool) (b : Board) : MoveResponse :=
  { fen := fenStr, valid := v, legal_moves := legalUci b, is_check := isCheck b,
    is_checkmate := isCheckmate b, is_stalemate := isStalemate b, is_game_over := isGameOver b }

/-- POST /move (src/app.py, `make_move`): `board = chess.Board(req.fen)` runs
before the `try:` block, so a position parse failure escapes the handler as an
unhandled exception (`Except.error`).  Inside the `try`, a move that parses and
is legal is pushed and the response is computed on the new board; a move parse
failure or an illegal move falls through to the shared `valid: False` return
built from the original board and the original input string. -/
def make_move (posStr mvStr : String) : Except String MoveResponse :=
  match parseBoard posStr with
  | none => Except.error "unhandled exception: invalid position"
  | some board =>
    Except.ok
      (match fromUci mvStr with
       | some mv =>
         if mv ∈ legalMoves board then
           moveResponseOf (boardFen (push board mv)) true (push board mv)
         else moveResponseOf posStr false board
       | none => moveResponseOf posStr false board)

/-- Response body of POST /fen: either the game-state snapshot or the
structured error object. -/
inductive FenResponse where
  | valid (legal_moves : List String) (is_check is_checkmate is_stalemate is_game_over : Bool)
  | invalid (error : String)
deriving DecidableEq, Repr

/-- POST /fen (src/app.py, `get_fen_info`): the whole body is inside
`try/except`, so a parse failure is downgraded to the structured
`{"valid": False, "error": "Invalid FEN"}` response and no exception
escapes — the handler is a total function. -/
def get_fen_info (posStr : String) : FenResponse :=
  match parseBoard posStr with
  | some board =>
    .valid (legalUci board) (isCheck board) (isCheckmate board) (isStalemate board)
      (isGameOver board)
  | none => .invalid "Invalid FEN"

/-- Response body of GET /reset (no `valid` field). -/
structure ResetResponse where
  fen : String
  legal_moves : List String
  is_check : Bool
  is_checkmate : Bool
  is_stalemate : Bool
  is_game_over : Bool
deriving DecidableEq, Repr

def backRank (c : Bool) : List (Option Piece) :=
  [some ⟨.rook, c⟩, some ⟨.knight, c⟩, some ⟨.bishop, c⟩, some ⟨.queen, c⟩,
   some ⟨.king, c⟩, some ⟨.bishop, c⟩, some ⟨.knight, c⟩, some ⟨.rook, c⟩]

/-- `chess.Board()`: the standard starting position. -/
def startingBoard : Board :=
  { pieces := backRank true ++ List.replicate 8 (some ⟨.pawn, true⟩)
      ++ List.replicate 32 none ++ List.replicate 8 (some ⟨.pawn, false⟩) ++ backRank false
  , turn := true
  , castling := ⟨true, true, true, true⟩
  , epSquare := none
  , halfmoveClock := 0
  , fullmoveNumber := 1 }

/-- GET /reset (src/app.py, `reset_game`): a fresh starting board's FEN and
legal moves, with the four state flags returned as hardcoded `False`
constants. -/
def reset_game : ResetResponse :=
  { fen := boardFen startingBoard
  , legal_moves := legalUci startingBoard
  , is_check := false
  , is_checkmate := false
  , is_stalemate := false
  , is_game_over := false }

deriving instance DecidableEq for Except

/-- The 20 legal opening moves of standard chess, in coordinate notation. -/
def knownOpeningMoves : List String :=
  ["a2a3", "a2a4", "b2b3", "b2b4", "c2c3", "c2c4", "d2d3", "d2d4",
   "e2e3", "e2e4", "f2f3", "f2f4", "g2g3", "g2g4", "h2h3", "h2h4",
   "b1a3", "b1c3", "g1f3", "g1h3"]

/-- Two successive POST /fen calls with the same body.  Each request is handled
independently — the handler reads no state besides its request, so the pair is
just the handler applied twice. -/
def inspectTwice (p : String) : FenResponse × FenResponse := (get_fen_info p, get_fen_info p)

/-- GET /reset as the spec's words describe the four flags: queried from the
rules engine on the freshly constructed starting board instead of hardcoded
(the refinement counterpart of `reset_game`). -/
def reset_game_computed : ResetResponse :=
  { fen := boardFen startingBoard
  , legal_moves := legalUci startingBoard
  , is_check := isCheck startingBoard
  , is_checkmate := isCheckmate startingBoard
  , is_stalemate := isStalemate startingBoard
  , is_game_over := isGameOver startingBoard }

/-- The response `make_move` produces for the mating move of the fool's-mate
scenario (used to instantiate the terminal-state invariant). -/
def foolsMateResponse : MoveResponse :=
  { fen := "rnb1kbnr/pppp1ppp/8/4p3/6Pq/5P2/PPPPP2P/RNBQKBNR w KQkq - 1 3"
  , valid := true
  , legal_moves := []
  , is_check := true
  , is_checkmate := true
  , is_stalemate := false
  , is_game_over := true }

/-! ## Helper lemmas -/

theorem legalMoves_eq_nil_of_isEmpty {b : Board} (h : (legalMoves b).isEmpty = true) :
    legalMoves b = [] := by
  cases hl : legalMoves b with
  | nil => rfl
  | cons x xs => rw [hl] at h; simp at h

/-- A board whose checkmate (resp. stalemate) flag is set reports the game as
over and has an empty legal-move list. -/
theorem board_terminal (b : Board) :
    (isCheckmate b = true → isGameOver b = true ∧ legalUci b = []) ∧
    (isStalemate b = true → isGameOver b = true ∧ legalUci b = []) := by
  constructor
  · intro h
    have hemp : (legalMoves b).isEmpty = true := by
      unfold isCheckmate at h
      exact ((Bool.and_eq_true _ _).mp h).2
    refine ⟨by simp [isGameOver, h], ?_⟩
    unfold legalUci
    rw [legalMoves_eq_nil_of_isEmpty hemp]
    rfl
  · intro h
    have hemp : (legalMoves b).isEmpty = true := by
      unfold isStalemate at h
      exact ((Bool.and_eq_true _ _).mp h).2
    refine ⟨by simp [isGameOver, h], ?_⟩
    unfold legalUci
    rw [legalMoves_eq_nil_of_isEmpty hemp]
    rfl

/-- Field-level terminal consistency for a `moveResponseOf` response. -/
theorem moveResponseOf_terminal (fenStr : String) (v : Bool) (b : Board) :
    ((moveResponseOf fenStr v b).is_checkmate = true →
      (moveResponseOf fenStr v b).is_game_over = true ∧ (moveResponseOf fenStr v b).legal_moves = []) ∧
    ((moveResponseOf fenStr v b).is_stalemate = true →
      (moveResponseOf fenStr v b).is_game_over = true ∧ (moveResponseOf fenStr v b).legal_moves = []) :=
  board_terminal b

/-- Once the position parses, `make_move` returns the structured response of
the corresponding branch. -/
theorem make_move_ok (p m : String) (b : Board) (hb : parseBoard p = some b) :
    make_move p m = Except.ok (match fromUci m with
      | some mv =>
        if mv ∈ legalMoves b then moveResponseOf (boardFen (push b mv)) true (push b mv)
        else moveResponseOf p false b
      | none => moveResponseOf p false b) := by
  unfold make_move
  rw [hb]

/-! ### Tokenization of produced and parsed FEN strings

The returned FEN of a successful move differs from the input position string
because the two have different side-to-move tokens.  The lemmas below compute
the tokens of a serialized FEN and relate the tokens of a parsed FEN to the
parsed board's turn. -/

theorem wordsByAux_word (p : Char → Bool) :
    ∀ w : List Char, (∀ c ∈ w, p c = false) →
      ∀ rest cur : List Char, wordsByAux p (w ++ rest) cur = wordsByAux p rest (w.reverse ++ cur) := by
  intro w
  induction w with
  | nil => intro _ rest cur; simp
  | cons c cs ih =>
    intro h rest cur
    have hc : p c = false := h c (by simp)
    simp only [List.cons_append, wordsByAux, hc, Bool.false_eq_true, if_false, List.append_eq]
    rw [ih (fun d hd => h d (by simp [hd])) rest (c :: cur)]
    simp

theorem wordsByAux_sep (p : Char → Bool) (x : Char) (hx : p x = true) (rest cur : List Char) :
    wordsByAux p (x :: rest) cur =
      if cur = [] then wordsByAux p rest [] else cur.reverse :: wordsByAux p rest [] := by
  simp [wordsByAux, hx]

/-- Peeling one separator-terminated word off the front of a tokenization. -/
theorem wordsBy_append_word (p : Char → Bool) (w : List Char) (x : Char) (rest : List Char)
    (hw : w ≠ []) (hall : ∀ c ∈ w, p c = false) (hx : p x = true) :
    wordsBy p (w ++ x :: rest) = w :: wordsBy p rest := by
  unfold wordsBy
  rw [wordsByAux_word p w hall (x :: rest) []]
  rw [wordsByAux_sep p x hx rest (w.reverse ++ [])]
  rw [if_neg (by simpa using hw)]
  simp

theorem wordsBy_single_word (p : Char → Bool) (w : List Char)
    (hw : w ≠ []) (hall : ∀ c ∈ w, p c = false) :
    wordsBy p w = [w] := by
  unfold wordsBy
  have h := wordsByAux_word p w hall [] []
  rw [List.append_nil] at h
  rw [h]
  rw [wordsByAux]
  rw [if_neg (by simpa using hw)]
  simp

theorem digitChar10_not_space (n : Nat) : isSpaceChar (digitChar10 n) = false := by
  unfold digitChar10
  split <;> decide

theorem pieceFenChar_not_space (p : Piece) : isSpaceChar (pieceFenChar p) = false := by
  obtain ⟨pt, c⟩ := p
  cases pt <;> cases c <;> decide

theorem fileChar_not_space (f : Nat) : isSpaceChar (fileChar f) = false := by
  unfold fileChar
  split <;> decide

theorem rankChar_not_space (r : Nat) : isSpaceChar (rankChar r) = false := by
  unfold rankChar
  split <;> decide

theorem emitRank_not_space : ∀ (cells : List (Option Piece)) (n : Nat),
    ∀ c ∈ emitRank cells n, isSpaceChar c = false := by
  intro cells
  induction cells with
  | nil =>
    intro n c hc
    cases n with
    | zero => simp [emitRank] at hc
    | succ k =>
      simp [emitRank] at hc
      subst hc
      exact digitChar10_not_space _
  | cons hd rest ih =>
    intro n c hc
    cases hd with
    | none => exact ih (n + 1) c (by simpa [emitRank] using hc)
    | some pc =>
      cases n with
      | zero =>
        have hc2 : c = pieceFenChar pc ∨ c ∈ emitRank rest 0 := by simpa [emitRank] using hc
        rcases hc2 with h | h
        · subst h; exact pieceFenChar_not_space pc
        · exact ih 0 c h
      | succ k =>
        have hc2 : c = digitChar10 (k + 1) ∨ c = pieceFenChar pc ∨ c ∈ emitRank rest 0 := by
          simpa [emitRank] using hc
        rcases hc2 with h | h | h
        · subst h; exact digitChar10_not_space _
        · subst h; exact pieceFenChar_not_space pc
        · exact ih 0 c h

theorem joinChar_mem (sep : Char) :
    ∀ (L : List (List Char)) (c : Char), c ∈ joinChar sep L → c = sep ∨ ∃ l ∈ L, c ∈ l := by
  intro L
  induction L with
  | nil => intro c hc; simp [joinChar] at hc
  | cons x xs ih =>
    intro c hc
    cases xs with
    | nil => exact Or.inr ⟨x, by simp, by simpa [joinChar] using hc⟩
    | cons y ys =>
      have hc2 : c ∈ x ∨ c = sep ∨ c ∈ joinChar sep (y :: ys) := by simpa [joinChar] using hc
      rcases hc2 with h | h | h
      · exact Or.inr ⟨x, by simp, h⟩
      · exact Or.inl h
      · rcases ih c h with h3 | ⟨l, hl, hcl⟩
        · exact Or.inl h3
        · exact Or.inr ⟨l, by simp [hl], hcl⟩

theorem placementChars_not_space (b : Board) :
    ∀ c ∈ placementChars b, isSpaceChar c = false := by
  intro c hc
  unfold placementChars at hc
  rcases joinChar_mem '/' _ c hc with h | ⟨l, hl, hcl⟩
  · subst h; decide
  · simp only [List.mem_map] at hl
    obtain ⟨r, _, hr⟩ := hl
    subst hr
    exact emitRank_not_space _ 0 c hcl

theorem joinChar_ne_nil (sep : Char) (x y : List Char) (xs : List (List Char)) :
    joinChar sep (x :: y :: xs) ≠ [] := by
  cases x <;> simp [joinChar]

theorem placementChars_ne_nil (b : Board) : placementChars b ≠ [] := by
  unfold placementChars
  have h8 : (List.range 8).reverse = [7, 6, 5, 4, 3, 2, 1, 0] := by decide
  rw [h8]
  simp only [List.map]
  exact joinChar_ne_nil _ _ _ _

theorem turnChars_not_space (t : Bool) : ∀ c ∈ turnChars t, isSpaceChar c = false := by
  cases t <;> decide

theorem turnChars_ne_nil (t : Bool) : turnChars t ≠ [] := by
  cases t <;> decide

theorem castlingChars_not_space (c : CastlingRights) :
    ∀ ch ∈ castlingChars c, isSpaceChar ch = false := by
  obtain ⟨wk, wq, bk, bq⟩ := c
  cases wk <;> cases wq <;> cases bk <;> cases bq <;> decide

theorem castlingChars_ne_nil (c : CastlingRights) : castlingChars c ≠ [] := by
  obtain ⟨wk, wq, bk, bq⟩ := c
  cases wk <;> cases wq <;> cases bk <;> cases bq <;> decide

theorem epChars_not_space (b : Board) : ∀ c ∈ epChars b, isSpaceChar c = false := by
  intro c hc
  unfold epChars at hc
  cases hep : b.epSquare with
  | none =>
    rw [hep] at hc
    simp at hc
    subst hc
    decide
  | some e =>
    rw [hep] at hc
    dsimp only at hc
    by_cases hle : hasLegalEp b
    · rw [if_pos hle] at hc
      unfold squareChars at hc
      rcases List.mem_cons.mp hc with h | h
      · subst h; exact fileChar_not_space _
      · rcases List.mem_cons.mp h with h2 | h2
        · subst h2; exact rankChar_not_space _
        · simp at h2
    · rw [if_neg hle] at hc
      simp at hc
      subst hc
      decide

theorem epChars_ne_nil (b : Board) : epChars b ≠ [] := by
  unfold epChars
  cases b.epSquare with
  | none => simp
  | some e =>
    dsimp only
    by_cases hle : hasLegalEp b
    · rw [if_pos hle]; simp [squareChars]
    · rw [if_neg hle]; simp

theorem natDigitsRevAux_not_space : ∀ fuel n : Nat,
    ∀ c ∈ natDigitsRevAux fuel n, isSpaceChar c = false := by
  intro fuel
  induction fuel with
  | zero => intro n c hc; simp [natDigitsRevAux] at hc
  | succ f ih =>
    intro n c hc
    by_cases hn : n = 0
    · simp [natDigitsRevAux, hn] at hc
    · rw [natDigitsRevAux] at hc
      rw [if_neg hn] at hc
      rcases List.mem_cons.mp hc with h | h
      · subst h; exact digitChar10_not_space _
      · exact ih _ c h

theorem natChars_not_space (n : Nat) : ∀ c ∈ natChars n, isSpaceChar c = false := by
  intro c hc
  unfold natChars at hc
  by_cases hn : n = 0
  · rw [if_pos hn] at hc; simp at hc; subst hc; decide
  · rw [if_neg hn] at hc
    exact natDigitsRevAux_not_space n n c (List.mem_reverse.mp hc)

theorem natChars_ne_nil (n : Nat) : natChars n ≠ [] := by
  unfold natChars
  by_cases hn : n = 0
  · rw [if_pos hn]; simp
  · rw [if_neg hn]
    simp only [ne_eq, List.reverse_eq_nil_iff]
    cases n with
    | zero => exact absurd rfl hn
    | succ k => simp [natDigitsRevAux]

/-- The tokens of a serialized FEN are exactly its six fields. -/
theorem fenTokens_boardFen (b : Board) :
    fenTokens (boardFen b) = [placementChars b, turnChars b.turn, castlingChars b.castling,
      epChars b, natChars b.halfmoveClock, natChars b.fullmoveNumber] := by
  have hsp : isSpaceChar ' ' = true := by decide
  unfold fenTokens boardFen
  show wordsBy isSpaceChar (joinChar ' ' [placementChars b, turnChars b.turn,
    castlingChars b.castling, epChars b, natChars b.halfmoveClock,
    natChars b.fullmoveNumber]) = _
  simp only [joinChar]
  rw [wordsBy_append_word _ _ _ _ (placementChars_ne_nil b) (placementChars_not_space b) hsp]
  rw [wordsBy_append_word _ _ _ _ (turnChars_ne_nil _) (turnChars_not_space _) hsp]
  rw [wordsBy_append_word _ _ _ _ (castlingChars_ne_nil _) (castlingChars_not_space _) hsp]
  rw [wordsBy_append_word _ _ _ _ (epChars_ne_nil b) (epChars_not_space b) hsp]
  rw [wordsBy_append_word _ _ _ _ (natChars_ne_nil _) (natChars_not_space _) hsp]
  rw [wordsBy_single_word _ _ (natChars_ne_nil _) (natChars_not_space _)]

theorem parseFieldsAfterTurn_turn (turn : Bool) (r1 : List (List Char))
    (v : Bool × CastlingRights × Option Nat × Nat × Nat)
    (h : parseFieldsAfterTurn turn r1 = some v) : v.1 = turn := by
  unfold parseFieldsAfterTurn at h
  cases h1 : parseCastlingTok r1 with
  | none => rw [h1] at h; simp at h
  | some v1 =>
    obtain ⟨cr, r2⟩ := v1
    rw [h1] at h
    dsimp only at h
    cases h2 : parseEpTok r2 with
    | none => rw [h2] at h; simp at h
    | some v2 =>
      obtain ⟨ep, r3⟩ := v2
      rw [h2] at h
      dsimp only at h
      cases h3 : parseHalfTok r3 with
      | none => rw [h3] at h; simp at h
      | some v3 =>
        obtain ⟨hm, r4⟩ := v3
        rw [h3] at h
        dsimp only at h
        cases h4 : parseFullTok r4 with
        | none => rw [h4] at h; simp at h
        | some v4 =>
          obtain ⟨fm, r5⟩ := v4
          rw [h4] at h
          dsimp only at h
          cases r5 with
          | cons a l => simp at h
          | nil =>
            simp only [Option.some.injEq] at h
            rw [← h]

/-- A token list that parses successfully is either just the placement (the
turn defaulting to white) or has the parsed turn's token in second place. -/
theorem parseFields_tokens (rest : List (List Char))
    (v : Bool × CastlingRights × Option Nat × Nat × Nat) (h : parseFields rest = some v) :
    (rest = [] ∧ v.1 = true) ∨ ∃ r, rest = turnChars v.1 :: r := by
  unfold parseFields at h
  cases rest with
  | nil =>
    simp only [parseTurnTok] at h
    exact Or.inl ⟨rfl, parseFieldsAfterTurn_turn true [] v h⟩
  | cons t r =>
    simp only [parseTurnTok] at h
    by_cases hw : t = ['w']
    · rw [if_pos hw] at h
      dsimp only at h
      have ht := parseFieldsAfterTurn_turn true r v h
      exact Or.inr ⟨r, by rw [hw, ht]; rfl⟩
    · by_cases hbk : t = ['b']
      · rw [if_neg hw, if_pos hbk] at h
        dsimp only at h
        have ht := parseFieldsAfterTurn_turn false r v h
        exact Or.inr ⟨r, by rw [hbk, ht]; rfl⟩
      · rw [if_neg hw, if_neg hbk] at h
        simp at h

theorem parseBoard_tokens (p : String) (b : Board) (h : parseBoard p = some b) :
    ∃ bp rest, fenTokens p = bp :: rest ∧
      ((rest = [] ∧ b.turn = true) ∨ ∃ r, rest = turnChars b.turn :: r) := by
  unfold parseBoard at h
  cases htok : fenTokens p with
  | nil => rw [htok] at h; simp at h
  | cons bp rest =>
    rw [htok] at h
    dsimp only at h
    refine ⟨bp, rest, rfl, ?_⟩
    cases hf : parseFields rest with
    | none => rw [hf] at h; simp at h
    | some v =>
      obtain ⟨turn, cr, ep, hm, fm⟩ := v
      rw [hf] at h
      dsimp only at h
      cases hpp : parsePlacement bp with
      | none => rw [hpp] at h; simp at h
      | some cells =>
        rw [hpp] at h
        simp only [Option.some.injEq] at h
        have hbt : b.turn = turn := by rw [← h]
        rw [hbt]
        exact parseFields_tokens rest _ hf

/-- The serialization of a board whose turn is flipped relative to the board
parsed from `p` can never be the string `p` itself. -/
theorem boardFen_ne_parsed (p : String) (b b2 : Board) (hb : parseBoard p = some b)
    (ht : b2.turn = !b.turn) : boardFen b2 ≠ p := by
  intro he
  have h6 := fenTokens_boardFen b2
  rw [he] at h6
  obtain ⟨bp, rest, htok, hcase⟩ := parseBoard_tokens p b hb
  rw [htok] at h6
  injection h6 with h6a h6b
  rcases hcase with ⟨hrest, _⟩ | ⟨r, hrest⟩
  · rw [hrest] at h6b
    exact List.noConfusion h6b
  · rw [hrest] at h6b
    injection h6b with h6c h6d
    rw [ht] at h6c
    cases hbt : b.turn <;> rw [hbt] at h6c <;> simp [turnChars] at h6c

/-! ## Claim theorems -/

/-- C1: for every position string that parses to a board `b` and every move
string that parses to a move in `b`'s legal-move set, POST /move returns
`valid: true` with `fen` equal to the encoding of the board obtained by
applying the move, and with `legal_moves`, `is_check`, `is_checkmate`,
`is_stalemate` and `is_game_over` all computed on that post-move board. -/
theorem c1_apply_legal_move (p m : String) (b : Board) (mv : Move)
    (hb : parseBoard p = some b) (hm : fromUci m = some mv) (hl : mv ∈ legalMoves b) :
    make_move p m = Except.ok
      { fen := boardFen (push b mv)
      , valid := true
      , legal_moves := legalUci (push b mv)
      , is_check := isCheck (push b mv)
      , is_checkmate := isCheckmate (push b mv)
      , is_stalemate := isStalemate (push b mv)
      , is_game_over := isGameOver (push b mv) } := by
  rw [make_move_ok p m b hb, hm]
  simp only [if_pos hl]
  rfl

theorem c1_apply_legal_move_witness :
    make_move "rnbqkbnr/pppppppp/8/8/8/8/PPPPPPPP/RNBQKBNR w KQkq - 0 1" "e2e4" = Except.ok
      { fen := boardFen (push startingBoard ⟨12, 28, none⟩)
      , valid := true
      , legal_moves := legalUci (push startingBoard ⟨12, 28, none⟩)
      , is_check := isCheck (push startingBoard ⟨12, 28, none⟩)
      , is_checkmate := isCheckmate (push startingBoard ⟨12, 28, none⟩)
      , is_stalemate := isStalemate (push startingBoard ⟨12, 28, none⟩)
      , is_game_over := isGameOver (push startingBoard ⟨12, 28, none⟩) } :=
  c1_apply_legal_move _ _ startingBoard ⟨12, 28, none⟩ (by decide) (by decide) (by decide)

/-- C2: for every position string that parses to a board `b` and every move
string that fails to parse or parses to a move outside `b`'s legal-move set,
POST /move returns `valid: false` with `fen` exactly the input string, and
`legal_moves` and the four state flags computed on the original board `b`. -/
theorem c2_reject_illegal_move (p m : String) (b : Board)
    (hb : parseBoard p = some b)
    (hm : fromUci m = none ∨ ∃ mv, fromUci m = some mv ∧ mv ∉ legalMoves b) :
    make_move p m = Except.ok
      { fen := p
      , valid := false
      , legal_moves := legalUci b
      , is_check := isCheck b
      , is_checkmate := isCheckmate b
      , is_stalemate := isStalemate b
      , is_game_over := isGameOver b } := by
  rw [make_move_ok p m b hb]
  rcases hm with hm | ⟨mv, hm, hnl⟩
  · rw [hm]
    rfl
  · rw [hm]
    simp only [if_neg hnl]
    rfl

theorem c2_reject_illegal_move_witness :
    make_move "rnbqkbnr/pppppppp/8/8/8/8/PPPPPPPP/RNBQKBNR w KQkq - 0 1" "e2e5" = Except.ok
      { fen := "rnbqkbnr/pppppppp/8/8/8/8/PPPPPPPP/RNBQKBNR w KQkq - 0 1"
      , valid := false
      , legal_moves := legalUci startingBoard
      , is_check := isCheck startingBoard
      , is_checkmate := isCheckmate startingBoard
      , is_stalemate := isStalemate startingBoard
      , is_game_over := isGameOver startingBoard } :=
  c2_reject_illegal_move _ _ startingBoard (by decide)
    (Or.inr ⟨⟨12, 36, none⟩, by decide, by decide⟩)

/-- C3: for every position string that fails to parse, POST /move produces no
structured response: board construction precedes the try/except boundary, so
the failure escapes the handler as an unhandled server-side error, never as a
`valid: false` body. -/
theorem c3_unparseable_position_is_server_error (p m : String) (h : parseBoard p = none) :
    make_move p m = Except.error "unhandled exception: invalid position" ∧
      ∀ r : MoveResponse, make_move p m ≠ Except.ok r := by
  have he : make_move p m = Except.error "unhandled exception: invalid position" := by
    unfold make_move
    rw [h]
  exact ⟨he, fun r hr => by rw [he] at hr; exact Except.noConfusion hr⟩

theorem c3_unparseable_position_is_server_error_witness :
    make_move "invalid-fen-string" "e2e4" = Except.error "unhandled exception: invalid position" ∧
      ∀ r : MoveResponse, make_move "invalid-fen-string" "e2e4" ≠ Except.ok r :=
  c3_unparseable_position_is_server_error "invalid-fen-string" "e2e4" (by decide)

/-- C4: POST /fen is total.  A position string that fails to parse yields
exactly `{valid: false, error: "Invalid FEN"}` (no exception escapes the
handler, which is a total function); one that parses yields `valid: true` with
the legal moves and the four state flags computed on the parsed board. -/
theorem c4_fen_info_total (p : String) :
    (parseBoard p = none → get_fen_info p = FenResponse.invalid "Invalid FEN") ∧
    (∀ b : Board, parseBoard p = some b →
      get_fen_info p = FenResponse.valid (legalUci b) (isCheck b) (isCheckmate b)
        (isStalemate b) (isGameOver b)) := by
  constructor
  · intro h
    unfold get_fen_info
    rw [h]
  · intro b h
    unfold get_fen_info
    rw [h]

theorem c4_fen_info_total_witness :
    get_fen_info "invalid-fen-string" = FenResponse.invalid "Invalid FEN" ∧
    get_fen_info "rnbqkbnr/pppppppp/8/8/8/8/PPPPPPPP/RNBQKBNR w KQkq - 0 1" =
      FenResponse.valid (legalUci startingBoard) (isCheck startingBoard)
        (isCheckmate startingBoard) (isStalemate startingBoard) (isGameOver startingBoard) :=
  ⟨(c4_fen_info_total "invalid-fen-string").1 (by decide),
   (c4_fen_info_total _).2 startingBoard (by decide)⟩

/-- C7: from the position reached by the fool's-mate sequence (1. f3 e5
2. g4, black to move), applying the legal mating move d8h4 through POST /move
yields `is_checkmate: true`, `is_game_over: true` and an empty `legal_moves`
list (the returned FEN being the mated position of the spec's scenario). -/
theorem c7_fools_mate_checkmate :
    make_move "rnbqkbnr/pppp1ppp/8/4p3/6P1/5P2/PPPPP2P/RNBQKBNR b KQkq - 0 2" "d8h4" =
      Except.ok
        { fen := "rnb1kbnr/pppp1ppp/8/4p3/6Pq/5P2/PPPPP2P/RNBQKBNR w KQkq - 1 3"
        , valid := true
        , legal_moves := []
        , is_check := true
        , is_checkmate := true
        , is_stalemate := false
        , is_game_over := true } := by
  decide

/-- C8: POST /fen is idempotent and deterministic — two calls with the same
input produce identical responses, and each response is a function of the
request alone (the handler reads no state besides its request, so its
embedding is a pure function). -/
theorem c8_inspect_idempotent (p : String) :
    (inspectTwice p).1 = (inspectTwice p).2 ∧ (inspectTwice p).1 = get_fen_info p :=
  ⟨rfl, rfl⟩

/-- C10: the four hardcoded `false` flags of GET /reset agree with the flags
the rules engine computes on the freshly constructed starting board — the
handler refines its flag-querying counterpart. -/
theorem c10_reset_flags_equivalent :
    reset_game = reset_game_computed ∧
      isCheck startingBoard = false ∧ isCheckmate startingBoard = false ∧
      isStalemate startingBoard = false ∧ isGameOver startingBoard = false := by
  decide

/-- C5: GET /reset is a total constant function (it cannot fail); its
`legal_moves` has exactly 20 entries that are, as a set, the known legal
opening moves, all four state flags are false, and `fen` is the standard
starting encoding. -/
theorem c5_reset_initial_position :
    reset_game.fen = "rnbqkbnr/pppppppp/8/8/8/8/PPPPPPPP/RNBQKBNR w KQkq - 0 1" ∧
    reset_game.legal_moves.length = 20 ∧
    reset_game.legal_moves.Perm knownOpeningMoves ∧
    reset_game.is_check = false ∧ reset_game.is_checkmate = false ∧
    reset_game.is_stalemate = false ∧ reset_game.is_game_over = false := by
  have hlm : reset_game.legal_moves =
      ["b1c3", "b1a3", "g1h3", "g1f3", "a2a3", "a2a4", "b2b3", "b2b4", "c2c3", "c2c4",
       "d2d3", "d2d4", "e2e3", "e2e4", "f2f3", "f2f4", "g2g3", "g2g4", "h2h3", "h2h4"] := by
    decide
  refine ⟨by decide, ?_, ?_, rfl, rfl, rfl, rfl⟩
  · rw [hlm]
    rfl
  · rw [hlm]
    decide

/-- C6: applying a legal move flips the side to move of the resulting
position, and consequently the `fen` string POST /move returns differs from
the input position string. -/
theorem c6_side_to_move_flips (p m : String) (b : Board) (mv : Move)
    (hb : parseBoard p = some b) (hm : fromUci m = some mv) (hl : mv ∈ legalMoves b) :
    (push b mv).turn = !b.turn ∧
      ∃ r : MoveResponse, make_move p m = Except.ok r ∧
        r.fen = boardFen (push b mv) ∧ r.fen ≠ p := by
  have hflip : (push b mv).turn = !b.turn := rfl
  refine ⟨hflip, moveResponseOf (boardFen (push b mv)) true (push b mv), ?_, rfl, ?_⟩
  · rw [make_move_ok p m b hb, hm]
    simp only [if_pos hl]
  · exact boardFen_ne_parsed p b (push b mv) hb hflip

theorem c6_side_to_move_flips_witness :
    (push startingBoard ⟨12, 28, none⟩).turn = !startingBoard.turn ∧
      ∃ r : MoveResponse,
        make_move "rnbqkbnr/pppppppp/8/8/8/8/PPPPPPPP/RNBQKBNR w KQkq - 0 1" "e2e4" =
          Except.ok r ∧
        r.fen = boardFen (push startingBoard ⟨12, 28, none⟩) ∧
        r.fen ≠ "rnbqkbnr/pppppppp/8/8/8/8/PPPPPPPP/RNBQKBNR w KQkq - 0 1" :=
  c6_side_to_move_flips _ _ startingBoard ⟨12, 28, none⟩ (by decide) (by decide) (by decide)

/-- C9: no response of any of the three handlers reports a terminal flag while
offering legal moves: whenever `is_checkmate` (resp. `is_stalemate`) is true,
`is_game_over` is true and `legal_moves` is empty. -/
theorem c9_terminal_flags_consistent :
    (∀ p m : String, ∀ r : MoveResponse, make_move p m = Except.ok r →
      (r.is_checkmate = true → r.is_game_over = true ∧ r.legal_moves = []) ∧
      (r.is_stalemate = true → r.is_game_over = true ∧ r.legal_moves = [])) ∧
    (∀ p : String, ∀ lm : List String, ∀ ck cm sm go : Bool,
      get_fen_info p = FenResponse.valid lm ck cm sm go →
      (cm = true → go = true ∧ lm = []) ∧ (sm = true → go = true ∧ lm = [])) ∧
    ((reset_game.is_checkmate = true →
        reset_game.is_game_over = true ∧ reset_game.legal_moves = []) ∧
     (reset_game.is_stalemate = true →
        reset_game.is_game_over = true ∧ reset_game.legal_moves = [])) := by
  refine ⟨?_, ?_, ?_⟩
  · intro p m r h
    unfold make_move at h
    cases hb : parseBoard p with
    | none => rw [hb] at h; exact Except.noConfusion h
    | some board =>
      rw [hb] at h
      injection h with h
      cases hm : fromUci m with
      | none =>
        rw [hm] at h
        rw [← h]
        exact moveResponseOf_terminal p false board
      | some mv =>
        rw [hm] at h
        dsimp only at h
        by_cases hl : mv ∈ legalMoves board
        · rw [if_pos hl] at h
          rw [← h]
          exact moveResponseOf_terminal _ true (push board mv)
        · rw [if_neg hl] at h
          rw [← h]
          exact moveResponseOf_terminal p false board
  · intro p lm ck cm sm go h
    unfold get_fen_info at h
    cases hb : parseBoard p with
    | none => rw [hb] at h; exact FenResponse.noConfusion h
    | some board =>
      rw [hb] at h
      injection h with h1 h2 h3 h4 h5
      subst h1; subst h3; subst h4; subst h5
      exact board_terminal board
  · constructor <;> intro h <;> exact absurd h (by decide)

theorem c9_terminal_flags_consistent_witness :
    foolsMateResponse.is_game_over = true ∧ foolsMateResponse.legal_moves = [] :=
  (c9_terminal_flags_consistent.1
      "rnbqkbnr/pppp1ppp/8/4p3/6P1/5P2/PPPPP2P/RNBQKBNR b KQkq - 0 2" "d8h4"
      foolsMateResponse (by decide)).1 (by decide)

end Chess
